import Mathlib

/-!
Shallow embedding of the file-encryption core of the repository
(`crates/crypto`): the primitives, the file-header codec
(`src/crates/crypto/src/header/file.rs`), the streaming AEAD wrappers and
block pumps (`src/crates/crypto/src/utils/stream.rs`,
`src/crates/crypto/src/file/encrypt.rs`), together with theorems settling
the specification claims about them.

Bytes are modelled as `Nat`, byte buffers as `List Nat`; Rust's fixed-size
arrays become lists whose lengths are carried as hypotheses.  Rust code that
can panic (unsigned subtraction underflow in `vec![0u8; n - m]`) is embedded
as an `Option`-returning function that is `none` exactly where the Rust
panics.
-/

set_option autoImplicit false

namespace Spacedrive

/-- `Algorithm` from the crate's `primitives` module (referenced throughout
`header/file.rs` and `utils/stream.rs`): the tagged choice of AEAD. -/
inductive Algorithm
  | XChaCha20Poly1305
  | Aes256Gcm
deriving DecidableEq

/-- `Mode` from the crate's `primitives` module: stream versus memory nonce
policy. -/
inductive Mode
  | Stream
  | Memory
deriving DecidableEq

/-- Modelled from the spec: `HashingAlgorithm` lives in the crate's
`primitives` module, which is not among the provided sources.  The spec
describes it as a tagged choice of password-hash parameterization (a
memory-hard KDF with fixed parameters), and the keyslot comment in
`header/file.rs` prices its tag at two bytes, so it is modelled as the
memory-hard KDF at a parameter level, giving at least two distinct tags. -/
inductive HashingAlgorithm
  | Argon2idStandard
  | Argon2idHardened
deriving DecidableEq

/-- Modelled from the spec: `BLOCK_SIZE` is a compile-time constant of the
missing `primitives` module; the spec fixes it at one value, e.g. 1 MiB. -/
def BLOCK_SIZE : Nat := 1048576

/-- Modelled from the spec: `SALT_LEN` from the missing `primitives`
module. -/
def SALT_LEN : Nat := 16

/-- Modelled from the spec: `ENCRYPTED_MASTER_KEY_LEN` from the missing
`primitives` module. -/
def ENCRYPTED_MASTER_KEY_LEN : Nat := 48

/-- Modelled from the spec: `AEAD_TAG_LEN` from the missing `primitives`
module. -/
def AEAD_TAG_LEN : Nat := 16

/-- Modelled from the spec: the crate's `error::Error` type is not among the
provided sources; constructors follow the spec's error taxonomy (§7) plus
the `ReadUnderflow` kind the spec's block-pump contract (§4.E) names. -/
inductive Error
  | IoError
  | NonceLengthMismatch
  | IncorrectStep
  | WriteMismatch
  | Encrypt
  | Decrypt
  | InvalidMagic
  | UnsupportedVersion
  | InvalidTag
  | NonZeroPadding
  | NoValidKeyslot
  | AuthenticationFailed
  | ReadUnderflow
deriving DecidableEq

/-- Modelled from the spec: `Algorithm::nonce_len`, from the missing
`primitives` module; returns the nonce-length table of spec §3. -/
def Algorithm.nonce_len (a : Algorithm) (m : Mode) : Nat :=
  match a, m with
  | .XChaCha20Poly1305, .Stream => 20
  | .XChaCha20Poly1305, .Memory => 24
  | .Aes256Gcm, .Stream => 8
  | .Aes256Gcm, .Memory => 12

/-! ## Header codec (`src/crates/crypto/src/header/file.rs`) -/

/-- `FileHeaderVersion` from `header/file.rs`. -/
inductive FileHeaderVersion
  | V1
deriving DecidableEq

/-- `FileHeaderVersion::serialize`. -/
def FileHeaderVersion.serialize : FileHeaderVersion → List Nat
  | .V1 => [0x0A, 0x01]

/-- `FileKeyslotVersion` from `header/file.rs`. -/
inductive FileKeyslotVersion
  | V1
deriving DecidableEq

/-- `FileKeyslotVersion::serialize`. -/
def FileKeyslotVersion.serialize : FileKeyslotVersion → List Nat
  | .V1 => [0x0D, 0x01]

/-- `Algorithm::serialize` from `header/file.rs`. -/
def Algorithm.serialize : Algorithm → List Nat
  | .XChaCha20Poly1305 => [0x0B, 0x01]
  | .Aes256Gcm => [0x0B, 0x02]

/-- `Mode::serialize` from `header/file.rs`. -/
def Mode.serialize : Mode → List Nat
  | .Stream => [0x0C, 0x01]
  | .Memory => [0x0C, 0x02]

/-- `MAGIC_BYTES` from `header/file.rs`. -/
def MAGIC_BYTES : List Nat := [0x08, 0xFF, 0x55, 0x32, 0x58, 0x1A]

/-- `FileKeyslot` from `header/file.rs`: the `[u8; SALT_LEN]` and
`[u8; ENCRYPTED_MASTER_KEY_LEN]` arrays become lists; theorems that need
their lengths carry them as hypotheses. -/
structure FileKeyslot where
  version : FileKeyslotVersion
  algorithm : Algorithm
  hashing_algorithm : HashingAlgorithm
  mode : Mode
  salt : List Nat
  nonce : List Nat
  master_key : List Nat
deriving DecidableEq

/-- `FileKeyslot::serialize`.  The Rust body appends version, algorithm,
mode, salt, master key, nonce and then `vec![0u8; 26 - nonce.len()]`; the
unsigned subtraction panics when the nonce is longer than 26 bytes, which
the embedding renders as `none`. -/
def FileKeyslot.serialize? (ks : FileKeyslot) : Option (List Nat) :=
  if ks.nonce.length ≤ 26 then
    some (ks.version.serialize ++ ks.algorithm.serialize ++ ks.mode.serialize
      ++ ks.salt ++ ks.master_key ++ ks.nonce
      ++ List.replicate (26 - ks.nonce.length) 0)
  else
    none

/-- `FileHeader` from `header/file.rs`. -/
structure FileHeader where
  version : FileHeaderVersion
  algorithm : Algorithm
  mode : Mode
  nonce : List Nat
  keyslots : List FileKeyslot
deriving DecidableEq

/-- The `for keyslot in &self.keyslots` loop of `FileHeader::serialize`:
serializes each keyslot in order and concatenates the results, propagating
a panic (`none`) from any slot. -/
def serializeKeyslots : List FileKeyslot → Option (List Nat)
  | [] => some []
  | ks :: rest =>
    match ks.serialize?, serializeKeyslots rest with
    | some b, some bs => some (b ++ bs)
    | _, _ => none

/-- `FileHeader::serialize`.  The Rust body appends the magic, version,
algorithm and mode tags, the nonce followed by `vec![0u8; 24 - nonce.len()]`,
each keyslot's serialization, and a 96-byte zero block for each of the
`2 - keyslots.len()` missing slots (the loop's blocks are modelled flattened
as one zero run of length `(2 - keyslots.len()) * 96`).  The two unsigned
subtractions panic — rendered `none` — when the nonce exceeds 24 bytes or
there are more than two keyslots. -/
def FileHeader.serialize? (h : FileHeader) : Option (List Nat) :=
  if h.nonce.length ≤ 24 then
    (serializeKeyslots h.keyslots).bind fun slotBytes =>
      if h.keyslots.length ≤ 2 then
        some (MAGIC_BYTES ++ h.version.serialize ++ h.algorithm.serialize
          ++ h.mode.serialize ++ h.nonce
          ++ List.replicate (24 - h.nonce.length) 0
          ++ slotBytes
          ++ List.replicate ((2 - h.keyslots.length) * 96) 0)
      else
        none
  else
    none

/-! ## Streaming AEAD (`src/crates/crypto/src/utils/stream.rs`)

The `EncryptorLE31` / `DecryptorLE31` stream objects come from the external
`aead` crate, not from this repository.  They are modelled by their
documented contract, which is all the pump code relies on: each
`encrypt_next` / `encrypt_last` call returns ciphertext that is the message
plus a 16-byte authentication tag and advances an internal LE31 counter;
each `decrypt_next` / `decrypt_last` call inverts this, failing when the
input cannot carry a tag.  The tag bytes themselves are abstracted as
zeros — every claim settled here depends only on lengths and control flow. -/

/-- In-memory byte source standing for the `Read + Seek` reader: `read`
into a buffer of `bufSize` bytes returns `min bufSize remaining` bytes, as
`std::io` cursors and files do. -/
structure Reader where
  data : List Nat
  pos : Nat
deriving DecidableEq

/-- `Read::read` into a fresh buffer of size `bufSize`: the count of bytes
obtained, the bytes themselves, and the advanced reader. -/
def Reader.read (r : Reader) (bufSize : Nat) : Nat × List Nat × Reader :=
  let count := min bufSize (r.data.length - r.pos)
  (count, (r.data.drop r.pos).take count, { r with pos := r.pos + count })

/-- In-memory byte sink standing for the `Write + Seek` writer (a file or
`Vec`-backed cursor): `write` accepts every byte offered and returns the
count accepted. -/
structure Writer where
  data : List Nat
deriving DecidableEq

/-- `Write::write`: appends the bytes and reports how many were accepted
(all of them, as for an in-memory or file sink). -/
def Writer.write (w : Writer) (bytes : List Nat) : Nat × Writer :=
  (bytes.length, ⟨w.data ++ bytes⟩)

/-- `StreamEncryption` from `utils/stream.rs`: one LE31 stream encryptor
per algorithm.  The external cipher state is modelled by the algorithm tag
and the LE31 block counter. -/
structure StreamEncryption where
  algorithm : Algorithm
  counter : Nat
deriving DecidableEq

/-- `StreamDecryption` from `utils/stream.rs`, modelled like
`StreamEncryption`. -/
structure StreamDecryption where
  algorithm : Algorithm
  counter : Nat
deriving DecidableEq

/-- `StreamEncryption::init`: rejects a nonce whose length is not
`nonce_len(algorithm, Mode::Stream)`, otherwise builds the cipher and wraps
it in a fresh LE31 encryptor (counter 0).  The key is always 32 bytes on
the Rust side, so `new_from_slice(..).unwrap()` cannot panic. -/
def StreamEncryption.init (_key : List Nat) (nonce : List Nat)
    (algorithm : Algorithm) : Except Error StreamEncryption :=
  if nonce.length ≠ algorithm.nonce_len Mode.Stream then
    Except.error Error.NonceLengthMismatch
  else
    Except.ok ⟨algorithm, 0⟩

/-- `StreamDecryption::init`, identical shape to `StreamEncryption::init`. -/
def StreamDecryption.init (_key : List Nat) (nonce : List Nat)
    (algorithm : Algorithm) : Except Error StreamDecryption :=
  if nonce.length ≠ algorithm.nonce_len Mode.Stream then
    Except.error Error.NonceLengthMismatch
  else
    Except.ok ⟨algorithm, 0⟩

/-- `StreamEncryption::encrypt_next` (contract of the external
`EncryptorLE31`): ciphertext is the message plus a 16-byte tag, counter
advances. -/
def StreamEncryption.encrypt_next (s : StreamEncryption)
    (msg : List Nat) : List Nat × StreamEncryption :=
  (msg ++ List.replicate AEAD_TAG_LEN 0, { s with counter := s.counter + 1 })

/-- `StreamEncryption::encrypt_last` (contract of the external
`EncryptorLE31`): consumes the encryptor, returning message plus tag. -/
def StreamEncryption.encrypt_last (_s : StreamEncryption)
    (msg : List Nat) : List Nat :=
  msg ++ List.replicate AEAD_TAG_LEN 0

/-- `StreamDecryption::decrypt_next` (contract of the external
`DecryptorLE31`): strips the 16-byte tag, failing on input too short to
carry one. -/
def StreamDecryption.decrypt_next (s : StreamDecryption)
    (ct : List Nat) : Except Unit (List Nat × StreamDecryption) :=
  if AEAD_TAG_LEN ≤ ct.length then
    Except.ok (ct.take (ct.length - AEAD_TAG_LEN),
      { s with counter := s.counter + 1 })
  else
    Except.error ()

/-- `StreamDecryption::decrypt_last` (contract of the external
`DecryptorLE31`): consumes the decryptor, stripping the tag. -/
def StreamDecryption.decrypt_last (_s : StreamDecryption)
    (ct : List Nat) : Except Unit (List Nat) :=
  if AEAD_TAG_LEN ≤ ct.length then
    Except.ok (ct.take (ct.length - AEAD_TAG_LEN))
  else
    Except.error ()

/-- `StreamEncryption::encrypt_streams` from `utils/stream.rs`: reads once
into a `BLOCK_SIZE` zero-initialized buffer; a full read goes through
`encrypt_next`, a short read through `encrypt_last` — both on the whole
buffer (`read_buffer.as_ref()`), so the short-read path encrypts the
zero-padded buffer.  After writing, both branches check
`read_count != write_count + 16` and return `WriteMismatch` when it holds.
On success the final writer and reader are returned (the Rust function owns
and mutates them, returning `Ok(())`). -/
def StreamEncryption.encrypt_streams (s : StreamEncryption)
    (reader : Reader) (writer : Writer) :
    Except Error (Writer × Reader) :=
  let rd := reader.read BLOCK_SIZE
  let read_count := rd.1
  let r' := rd.2.2
  let read_buffer := rd.2.1 ++ List.replicate (BLOCK_SIZE - read_count) 0
  if read_count = BLOCK_SIZE then
    let enc := s.encrypt_next read_buffer
    let wr := writer.write enc.1
    if read_count ≠ wr.1 + 16 then
      Except.error Error.WriteMismatch
    else
      Except.ok (wr.2, r')
  else
    let encrypted_data := s.encrypt_last read_buffer
    let wr := writer.write encrypted_data
    if read_count ≠ wr.1 + 16 then
      Except.error Error.WriteMismatch
    else
      Except.ok (wr.2, r')

/-- `StreamDecryption::decrypt_streams` from `utils/stream.rs`: reads once
into a `BLOCK_SIZE` zero-initialized buffer; a full read goes through
`decrypt_next` on the whole buffer, a short read through `decrypt_last` on
the first `read_count` bytes (`read_buffer[..read_count]`).  After writing,
both branches check `read_count - 16 != write_count` and return
`WriteMismatch` when it holds. -/
def StreamDecryption.decrypt_streams (s : StreamDecryption)
    (reader : Reader) (writer : Writer) :
    Except Error (Writer × Reader) :=
  let rd := reader.read BLOCK_SIZE
  let read_count := rd.1
  let r' := rd.2.2
  let read_buffer := rd.2.1 ++ List.replicate (BLOCK_SIZE - read_count) 0
  if read_count = BLOCK_SIZE then
    match s.decrypt_next read_buffer with
    | Except.error _ => Except.error Error.Decrypt
    | Except.ok dec =>
      let wr := writer.write dec.1
      if read_count - 16 ≠ wr.1 then
        Except.error Error.WriteMismatch
      else
        Except.ok (wr.2, r')
  else
    match s.decrypt_last (read_buffer.take read_count) with
    | Except.error _ => Except.error Error.Decrypt
    | Except.ok decrypted_data =>
      let wr := writer.write decrypted_data
      if read_count - 16 ≠ wr.1 then
        Except.error Error.WriteMismatch
      else
        Except.ok (wr.2, r')

/-! ## Encryption pump (`src/crates/crypto/src/file/encrypt.rs`) -/

/-- Fuel-bounded bit length: `bitLenAux fuel n` is the number of binary
digits of `n` for any `fuel ≥` that number (structural recursion on the
fuel keeps the definition kernel-reducible). -/
def bitLenAux : Nat → Nat → Nat
  | 0, _ => 0
  | fuel + 1, n => if n = 0 then 0 else bitLenAux fuel (n / 2) + 1

/-- Number of binary digits of `n` (64 bits of fuel covers every `u32`
and far beyond). -/
def bitLen (n : Nat) : Nat := bitLenAux 64 n

/-- The `u32 → f32` conversion `file_size as f32` in `StreamEncryptor::new`:
round to nearest even at 24 significant bits.  Values below `2^24` are
exact; above, the low `bitLen n − 24` bits are rounded away, ties going to
the even significand. -/
def f32RoundNat (n : Nat) : Nat :=
  if n < 2 ^ 24 then n
  else
    let shift := bitLen n - 24
    let q := n / 2 ^ shift
    let r := n % 2 ^ shift
    let half := 2 ^ (shift - 1)
    let q' :=
      if r < half then q
      else if half < r then q + 1
      else if q % 2 = 0 then q else q + 1
    q' * 2 ^ shift

/-- `(file_size as f32 / BLOCK_SIZE as f32).ceil() as i64` from
`StreamEncryptor::new`, as a function on the `u32` value.  The conversion
of `file_size` rounds to nearest even (`f32RoundNat`); the division by
`BLOCK_SIZE = 2^20` (exactly representable) and the `ceil` are exact in
`f32` because dividing by a power of two only shifts the exponent and the
quotient is below `2^12`; the final `as i64` is exact.  So the whole
pipeline equals the integer ceiling of the rounded dividend. -/
def totalStepNat (file_size : Nat) : Nat :=
  (f32RoundNat file_size + (BLOCK_SIZE - 1)) / BLOCK_SIZE

/-- The exact integer ceiling `⌈n / d⌉` the spec's
`total_step = ceil(file_size / BLOCK_SIZE)` denotes. -/
def ceilDiv (n d : Nat) : Nat :=
  (n + (d - 1)) / d

/-- `StreamEncryptor` from `file/encrypt.rs`: stream object, reader,
writer, and the two `i64` step counters (the `RefCell`s are interior
mutability only and vanish in the embedding). -/
structure StreamEncryptor where
  stream_object : StreamEncryption
  reader : Reader
  writer : Writer
  current_step : Int
  total_step : Int
deriving DecidableEq

/-- `StreamStepType` from `file/encrypt.rs`. -/
inductive StreamStepType
  | Normal
  | Final
deriving DecidableEq

/-- `StreamEncryptor::new`: wraps the parts and sets `current_step = 0`,
`total_step = (file_size as f32 / BLOCK_SIZE as f32).ceil() as i64`. -/
def StreamEncryptor.new (stream_object : StreamEncryption)
    (source_file : Reader) (output_file : Writer) (file_size : Nat) :
    StreamEncryptor :=
  { stream_object := stream_object
    reader := source_file
    writer := output_file
    current_step := 0
    total_step := (totalStepNat file_size : Int) }

/-- `StreamEncryptor::get_step_type`. -/
def StreamEncryptor.get_step_type (e : StreamEncryptor) : StreamStepType :=
  if e.current_step < e.total_step then .Normal else .Final

/-- `StreamEncryptor::step`: reads into a `BLOCK_SIZE` zero-initialized
buffer; when the read was full and `current_step < total_step`, encrypts
the buffer with `encrypt_next`, writes it, and returns `WriteMismatch`
when `read_count != write_count`; otherwise returns `IncorrectStep`.
`current_step` is incremented only on the successful path.  The post-state
is returned alongside the result, since the Rust method mutates `self`
through the `RefCell`s even on the failing paths (the read always advances
the reader; the cipher state and writer advance up to the point of the
early return). -/
def StreamEncryptor.step (e : StreamEncryptor) :
    Except Error Unit × StreamEncryptor :=
  let rd := e.reader.read BLOCK_SIZE
  let read_count := rd.1
  let r' := rd.2.2
  let read_buffer := rd.2.1 ++ List.replicate (BLOCK_SIZE - read_count) 0
  if read_count = BLOCK_SIZE ∧ e.current_step < e.total_step then
    let enc := e.stream_object.encrypt_next read_buffer
    let wr := e.writer.write enc.1
    if read_count ≠ wr.1 then
      (Except.error Error.WriteMismatch,
        { e with stream_object := enc.2, reader := r', writer := wr.2 })
    else
      (Except.ok (),
        { e with stream_object := enc.2, reader := r', writer := wr.2,
                 current_step := e.current_step + 1 })
  else
    (Except.error Error.IncorrectStep, { e with reader := r' })

/-- `n` consecutive `step` calls, keeping the post-state of each (results
discarded), to speak about arbitrary sequences of `step` calls. -/
def stepN : Nat → StreamEncryptor → StreamEncryptor
  | 0, e => e
  | n + 1, e => stepN n (e.step).2

/-- `StreamEncryptor::finalize`: reads into a `BLOCK_SIZE` zero-initialized
buffer; when the read was short and `current_step == total_step`, encrypts
the whole buffer with `encrypt_last` and writes it, returning
`WriteMismatch` when `read_count != write_count`; otherwise returns
`IncorrectStep`.  Consumes the encryptor; the final writer is returned on
success. -/
def StreamEncryptor.finalize (e : StreamEncryptor) : Except Error Writer :=
  let rd := e.reader.read BLOCK_SIZE
  let read_count := rd.1
  let read_buffer := rd.2.1 ++ List.replicate (BLOCK_SIZE - read_count) 0
  if read_count ≠ BLOCK_SIZE ∧ e.current_step = e.total_step then
    let encrypted_data := e.stream_object.encrypt_last read_buffer
    let wr := e.writer.write encrypted_data
    if read_count ≠ wr.1 then
      Except.error Error.WriteMismatch
    else
      Except.ok wr.2
  else
    Except.error Error.IncorrectStep

/-! ## Concrete instances used by witnesses and counterexamples -/

/-- A well-formed keyslot with zero salt, a 12-byte zero nonce and a zero
encrypted master key, parameterized by the hashing algorithm. -/
def sampleKeyslot (h : HashingAlgorithm) : FileKeyslot :=
  { version := .V1
    algorithm := .Aes256Gcm
    hashing_algorithm := h
    mode := .Stream
    salt := List.replicate 16 0
    nonce := List.replicate 12 0
    master_key := List.replicate 48 0 }

/-- A well-formed header with a 20-byte zero nonce and one occupied slot. -/
def sampleHeader : FileHeader :=
  { version := .V1
    algorithm := .XChaCha20Poly1305
    mode := .Stream
    nonce := List.replicate 20 0
    keyslots := [sampleKeyslot .Argon2idStandard] }

/-- A fresh XChaCha20-Poly1305 stream encryptor state. -/
def encStateX : StreamEncryption := ⟨.XChaCha20Poly1305, 0⟩

/-- A fresh XChaCha20-Poly1305 stream decryptor state. -/
def decStateX : StreamDecryption := ⟨.XChaCha20Poly1305, 0⟩

/-- A reader with no bytes. -/
def emptyReader : Reader := ⟨[], 0⟩

/-- A writer that has received nothing yet. -/
def emptyWriter : Writer := ⟨[]⟩

/-- A pump over a reader holding exactly one full plaintext block of
zeros, with one normal step to perform. -/
def fullBlockEncryptor : StreamEncryptor :=
  ⟨encStateX, ⟨List.replicate BLOCK_SIZE 0, 0⟩, emptyWriter, 0, 1⟩

/-- A pump whose reader is already exhausted while a normal step is still
due (`current_step = 0 < 1 = total_step`). -/
def shortReadEncryptor : StreamEncryptor :=
  ⟨encStateX, emptyReader, emptyWriter, 0, 1⟩

/-- A ciphertext reader holding one full encrypted block:
`BLOCK_SIZE + AEAD_TAG_LEN` zero bytes. -/
def fullCiphertextReader : Reader :=
  ⟨List.replicate (BLOCK_SIZE + AEAD_TAG_LEN) 0, 0⟩

/-! ## Helper lemmas -/

/-- A keyslot with the Rust-side field widths (16-byte salt, 48-byte
encrypted master key, nonce at most 26 bytes) serializes to exactly 96
bytes. -/
theorem keyslot_serialize_length (ks : FileKeyslot)
    (hsalt : ks.salt.length = 16) (hmk : ks.master_key.length = 48)
    (hn : ks.nonce.length ≤ 26) :
    ∃ b, ks.serialize? = some b ∧ b.length = 96 := by
  refine ⟨_, by rw [FileKeyslot.serialize?, if_pos hn], ?_⟩
  have hv : ks.version.serialize.length = 2 := by cases ks.version; rfl
  have ha : ks.algorithm.serialize.length = 2 := by cases ks.algorithm <;> rfl
  have hm : ks.mode.serialize.length = 2 := by cases ks.mode <;> rfl
  simp [List.length_append, hv, ha, hm, hsalt, hmk]
  omega

/-- Serializing a list of well-formed keyslots succeeds and yields 96
bytes per slot. -/
theorem serializeKeyslots_length (l : List FileKeyslot)
    (hl : ∀ ks ∈ l, ks.salt.length = 16 ∧ ks.master_key.length = 48 ∧
      ks.nonce.length ≤ 26) :
    ∃ bs, serializeKeyslots l = some bs ∧ bs.length = 96 * l.length := by
  induction l with
  | nil => exact ⟨[], rfl, rfl⟩
  | cons ks rest ih =>
    obtain ⟨h1, h2, h3⟩ := hl ks (by simp)
    obtain ⟨b, hb, hblen⟩ := keyslot_serialize_length ks h1 h2 h3
    obtain ⟨bs, hbs, hbslen⟩ := ih fun k hk => hl k (by simp [hk])
    refine ⟨b ++ bs, ?_, ?_⟩
    · rw [serializeKeyslots, hb, hbs]
    · simp [List.length_append, hblen, hbslen, Nat.mul_succ]
      ring

/-- Serializing a list of keyslots panics (is `none`) exactly when some
slot's nonce exceeds 26 bytes. -/
theorem serializeKeyslots_isSome_iff (l : List FileKeyslot) :
    (serializeKeyslots l).isSome ↔ ∀ ks ∈ l, ks.nonce.length ≤ 26 := by
  induction l with
  | nil => simp [serializeKeyslots]
  | cons ks rest ih =>
    rw [serializeKeyslots]
    constructor
    · intro hs
      rcases hks : ks.serialize? with _ | b
      · rw [hks] at hs; simp at hs
      · rcases hrest : serializeKeyslots rest with _ | bs
        · rw [hks, hrest] at hs; simp at hs
        · intro k hk
          rcases List.mem_cons.mp hk with rfl | hmem
          · by_contra hgt
            rw [FileKeyslot.serialize?, if_neg (by omega)] at hks
            exact Option.noConfusion hks
          · exact (ih.mp (by rw [hrest]; rfl)) k hmem
    · intro hall
      have hks : ks.serialize?.isSome := by
        rw [FileKeyslot.serialize?, if_pos (hall ks (by simp))]; rfl
      obtain ⟨b, hb⟩ := Option.isSome_iff_exists.mp hks
      obtain ⟨bs, hbs⟩ := Option.isSome_iff_exists.mp
        (ih.mpr fun k hk => hall k (by simp [hk]))
      rw [hb, hbs]
      rfl

/-! ## Claim theorems -/

/-- C10: `FileHeader::serialize` is total — produces a byte vector instead
of hitting an unsigned-subtraction panic — exactly when the header's nonce
is at most 24 bytes, it carries at most two keyslots, and every keyslot's
nonce is at most 26 bytes. -/
theorem header_serialize_total_iff_bounds (h : FileHeader) :
    (h.serialize?).isSome ↔
      h.nonce.length ≤ 24 ∧ h.keyslots.length ≤ 2 ∧
        ∀ ks ∈ h.keyslots, ks.nonce.length ≤ 26 := by
  rw [FileHeader.serialize?]
  by_cases hn : h.nonce.length ≤ 24
  · rw [if_pos hn]
    rcases hsk : serializeKeyslots h.keyslots with _ | slotBytes
    · have hslots := serializeKeyslots_isSome_iff h.keyslots
      rw [hsk] at hslots
      simp only [Option.isSome_none, Bool.false_eq_true, false_iff] at hslots
      simp [hn, hslots]
    · have hslots := serializeKeyslots_isSome_iff h.keyslots
      rw [hsk] at hslots
      simp only [Option.isSome_some, true_iff] at hslots
      rw [Option.some_bind]
      by_cases hk : h.keyslots.length ≤ 2
      · rw [if_pos hk]
        simp only [Option.isSome_some, true_iff]
        exact ⟨hn, hk, hslots⟩
      · rw [if_neg hk]
        simp [hk]
  · rw [if_neg hn]
    simp [hn]

/-- C6: for every header whose nonce has one of the valid lengths
(8, 12, 20 or 24 bytes) and whose at most two keyslots have the Rust-side
field widths, `FileHeader::serialize` produces exactly 228 bytes: a 36-byte
fixed prefix, 96 bytes per occupied slot, and an all-zero run of 96 bytes
for each absent slot.  Shorter nonces are zero-padded to the fixed field
widths, so the length does not depend on the nonce length. -/
theorem header_serialize_228 (h : FileHeader)
    (hn : h.nonce.length ∈ [8, 12, 20, 24])
    (hk : h.keyslots.length ≤ 2)
    (hs : ∀ ks ∈ h.keyslots, ks.salt.length = 16 ∧
      ks.master_key.length = 48 ∧ ks.nonce.length ≤ 26) :
    ∃ pre slots,
      h.serialize? =
        some (pre ++ slots ++ List.replicate ((2 - h.keyslots.length) * 96) 0) ∧
      pre.length = 36 ∧
      slots.length = 96 * h.keyslots.length ∧
      (pre ++ slots ++
        List.replicate ((2 - h.keyslots.length) * 96) 0).length = 228 := by
  have hn24 : h.nonce.length ≤ 24 := by
    simp only [List.mem_cons, List.not_mem_nil, or_false] at hn
    rcases hn with hn | hn | hn | hn <;> omega
  obtain ⟨slots, hslots, hslotsLen⟩ := serializeKeyslots_length h.keyslots hs
  have hv : h.version.serialize.length = 2 := by cases h.version; rfl
  have ha : h.algorithm.serialize.length = 2 := by cases h.algorithm <;> rfl
  have hm : h.mode.serialize.length = 2 := by cases h.mode <;> rfl
  refine ⟨MAGIC_BYTES ++ h.version.serialize ++ h.algorithm.serialize
    ++ h.mode.serialize ++ h.nonce
    ++ List.replicate (24 - h.nonce.length) 0, slots, ?_, ?_, hslotsLen, ?_⟩
  · rw [FileHeader.serialize?, if_pos hn24, hslots, Option.some_bind,
      if_pos hk]
  · simp [List.length_append, hv, ha, hm, MAGIC_BYTES]
    omega
  · simp [List.length_append, hv, ha, hm, MAGIC_BYTES, hslotsLen]
    omega

/-- C6 witness: the concrete one-slot header serializes as the theorem
states. -/
theorem header_serialize_228_witness :
    sampleHeader.nonce.length ∈ [8, 12, 20, 24] ∧
    sampleHeader.keyslots.length ≤ 2 ∧
    ∃ pre slots,
      sampleHeader.serialize? =
        some (pre ++ slots ++
          List.replicate ((2 - sampleHeader.keyslots.length) * 96) 0) ∧
      pre.length = 36 ∧
      slots.length = 96 * sampleHeader.keyslots.length ∧
      (pre ++ slots ++
        List.replicate ((2 - sampleHeader.keyslots.length) * 96) 0).length
        = 228 :=
  ⟨by decide, by decide,
    header_serialize_228 sampleHeader (by decide) (by decide) (by decide)⟩

/-- C4 counterexample: two keyslots that differ only in their hashing
algorithm serialize to identical bytes, so the serialized 96 bytes do not
determine the `hashing_algorithm` field, contrary to the claim. -/
theorem keyslot_serialize_drops_hashing_concrete :
    (sampleKeyslot .Argon2idStandard).hashing_algorithm ≠
      (sampleKeyslot .Argon2idHardened).hashing_algorithm ∧
    (sampleKeyslot .Argon2idStandard).serialize? =
      (sampleKeyslot .Argon2idHardened).serialize? := by
  constructor
  · decide
  · rfl

/-- C4 amended: `FileKeyslot::serialize` omits the hashing-algorithm tag
entirely — the serialized bytes are invariant under any change of the
`hashing_algorithm` field (the layout is version, algorithm, mode, salt,
encrypted master key, nonce, zero padding). -/
theorem keyslot_serialize_ignores_hashing (ks : FileKeyslot)
    (h : HashingAlgorithm) :
    ({ ks with hashing_algorithm := h } : FileKeyslot).serialize? =
      ks.serialize? := rfl

/-- C5 counterexample: at `file_size = 2^24 + 1 = 16777217` the `f32`
pipeline in `StreamEncryptor::new` rounds the dividend down to `2^24`, so
`total_step` becomes 16 although the exact ceiling of
`16777217 / BLOCK_SIZE` is 17. -/
theorem total_step_not_ceiling_at_16777217 :
    (StreamEncryptor.new encStateX emptyReader emptyWriter
      16777217).total_step = 16 ∧
    ceilDiv 16777217 BLOCK_SIZE = 17 := by
  constructor
  · decide
  · decide

/-- C5 amended: for every declared `file_size` up to `2^24` — the range on
which the `u32 → f32` conversion is exact — `StreamEncryptor::new` sets
`total_step` to the exact integer ceiling of `file_size / BLOCK_SIZE`;
beyond that the `f32` rounding can change the result. -/
theorem total_step_exact_up_to_2pow24 (so : StreamEncryption) (r : Reader)
    (w : Writer) (file_size : Nat) (hfs : file_size ≤ 2 ^ 24) :
    (StreamEncryptor.new so r w file_size).total_step =
      (ceilDiv file_size BLOCK_SIZE : Int) := by
  have htot : totalStepNat file_size = ceilDiv file_size BLOCK_SIZE := by
    rcases Nat.lt_or_ge file_size (2 ^ 24) with hlt | hge
    · have hround : f32RoundNat file_size = file_size := by
        rw [f32RoundNat, if_pos hlt]
      rw [totalStepNat, hround, ceilDiv]
    · have heq : file_size = 2 ^ 24 := le_antisymm hfs hge
      subst heq
      decide
  simp [StreamEncryptor.new, htot]

/-- C5 witness: at the spec's own test length `5·BLOCK_SIZE + 17`, which is
below `2^24`, the computed `total_step` equals the exact ceiling. -/
theorem total_step_exact_witness :
    5242897 ≤ 2 ^ 24 ∧
    (StreamEncryptor.new encStateX emptyReader emptyWriter
      5242897).total_step = (ceilDiv 5242897 BLOCK_SIZE : Int) :=
  ⟨by decide,
    total_step_exact_up_to_2pow24 encStateX emptyReader emptyWriter
      5242897 (by decide)⟩

/-- C8: for every key and algorithm, `StreamEncryption::init` and
`StreamDecryption::init` return `NonceLengthMismatch` exactly when the
nonce's length differs from `nonce_len(algorithm, Stream)`; when it
matches, both return `Ok` with a fresh stream object. -/
theorem stream_init_nonce_check (key nonce : List Nat) (a : Algorithm) :
    (StreamEncryption.init key nonce a =
        Except.error Error.NonceLengthMismatch ↔
      nonce.length ≠ a.nonce_len Mode.Stream) ∧
    (StreamDecryption.init key nonce a =
        Except.error Error.NonceLengthMismatch ↔
      nonce.length ≠ a.nonce_len Mode.Stream) ∧
    (nonce.length = a.nonce_len Mode.Stream →
      StreamEncryption.init key nonce a = Except.ok ⟨a, 0⟩ ∧
      StreamDecryption.init key nonce a = Except.ok ⟨a, 0⟩) := by
  rw [StreamEncryption.init, StreamDecryption.init]
  by_cases h : nonce.length = a.nonce_len Mode.Stream
  · simp [h]
  · simp [h]

/-- A 32-byte zero key. -/
def keyZero32 : List Nat := List.replicate 32 0

/-- An 8-byte zero nonce — the stream nonce length of AES-256-GCM. -/
def nonceZero8 : List Nat := List.replicate 8 0

/-- C8 witness: with the matching 8-byte nonce, both inits succeed for
AES-256-GCM. -/
theorem stream_init_nonce_check_witness :
    StreamEncryption.init keyZero32 nonceZero8 Algorithm.Aes256Gcm =
      Except.ok ⟨Algorithm.Aes256Gcm, 0⟩ ∧
    StreamDecryption.init keyZero32 nonceZero8 Algorithm.Aes256Gcm =
      Except.ok ⟨Algorithm.Aes256Gcm, 0⟩ :=
  (stream_init_nonce_check keyZero32 nonceZero8 Algorithm.Aes256Gcm).2.2
    (by decide)

/-- `step` never changes `total_step`. -/
theorem step_total_step (e : StreamEncryptor) :
    (e.step).2.total_step = e.total_step := by
  simp only [StreamEncryptor.step]
  split
  · split <;> rfl
  · rfl

/-- Complete case analysis of `step`: either it returns `Ok` — possible
only when `current_step < total_step` — and increments `current_step`, or
it fails and leaves `current_step` unchanged. -/
theorem step_cases (e : StreamEncryptor) :
    ((e.step).1 = Except.ok () ∧ e.current_step < e.total_step ∧
      (e.step).2.current_step = e.current_step + 1) ∨
    ((e.step).1 ≠ Except.ok () ∧
      (e.step).2.current_step = e.current_step) := by
  simp only [StreamEncryptor.step]
  split
  · rename_i hcond
    split
    · right
      exact ⟨fun hc => Except.noConfusion hc, rfl⟩
    · left
      exact ⟨rfl, hcond.2, rfl⟩
  · right
    exact ⟨fun hc => Except.noConfusion hc, rfl⟩

/-- One `step` preserves `current_step ≤ total_step`. -/
theorem step_preserves_le (e : StreamEncryptor)
    (h : e.current_step ≤ e.total_step) :
    (e.step).2.current_step ≤ (e.step).2.total_step := by
  rw [step_total_step]
  rcases step_cases e with ⟨_, hlt, hinc⟩ | ⟨_, heq⟩
  · omega
  · omega

/-- Any number of `step` calls preserves `current_step ≤ total_step`. -/
theorem stepN_preserves_le (n : Nat) (e : StreamEncryptor)
    (h : e.current_step ≤ e.total_step) :
    (stepN n e).current_step ≤ (stepN n e).total_step := by
  induction n generalizing e with
  | zero => exact h
  | succ n ih => exact ih (e.step).2 (step_preserves_le e h)

/-- C9: starting from a freshly constructed `StreamEncryptor`
(`current_step = 0`), `current_step ≤ total_step` holds after every
sequence of `step` calls; `step` increments `current_step` exactly when it
returns `Ok`, which requires `current_step < total_step`; and `finalize`
returns `IncorrectStep` whenever `current_step ≠ total_step`. -/
theorem encryptor_counter_invariant :
    (∀ (so : StreamEncryption) (r : Reader) (w : Writer) (fs n : Nat),
      (stepN n (StreamEncryptor.new so r w fs)).current_step ≤
        (stepN n (StreamEncryptor.new so r w fs)).total_step) ∧
    (∀ e : StreamEncryptor, (e.step).1 = Except.ok () →
      e.current_step < e.total_step ∧
      (e.step).2.current_step = e.current_step + 1) ∧
    (∀ e : StreamEncryptor, (e.step).1 ≠ Except.ok () →
      (e.step).2.current_step = e.current_step) ∧
    (∀ e : StreamEncryptor, e.current_step ≠ e.total_step →
      e.finalize = Except.error Error.IncorrectStep) := by
  refine ⟨?_, ?_, ?_, ?_⟩
  · intro so r w fs n
    refine stepN_preserves_le n _ ?_
    simp only [StreamEncryptor.new]
    exact Int.natCast_nonneg _
  · intro e h
    rcases step_cases e with ⟨_, hlt, hinc⟩ | ⟨hne, _⟩
    · exact ⟨hlt, hinc⟩
    · exact absurd h hne
  · intro e h
    rcases step_cases e with ⟨hok, _, _⟩ | ⟨_, heq⟩
    · exact absurd hok h
    · exact heq
  · intro e hne
    simp only [StreamEncryptor.finalize]
    split
    · rename_i hcond
      exact absurd hcond.2 hne
    · rfl

/-- C9 witness: `finalize` on a pump with `current_step = 0 ≠ 1 =
total_step` returns `IncorrectStep`. -/
theorem encryptor_counter_invariant_witness :
    shortReadEncryptor.finalize = Except.error Error.IncorrectStep :=
  encryptor_counter_invariant.2.2.2 shortReadEncryptor (by decide)

/-- C7 counterexample: a `step` on an exhausted reader while
`current_step = 0 < 1 = total_step` fails with `IncorrectStep` — not with
the `ReadUnderflow` the claim names. -/
theorem step_short_read_not_read_underflow :
    (shortReadEncryptor.step).1 = Except.error Error.IncorrectStep ∧
    Error.IncorrectStep ≠ Error.ReadUnderflow := by
  constructor
  · rfl
  · decide

/-- C7 amended: if `step` encounters a short read (the reader yields fewer
than `BLOCK_SIZE` bytes) while `current_step < total_step`, it fails with
the `IncorrectStep` error (the code has no `ReadUnderflow` path). -/
theorem step_short_read_incorrect_step (e : StreamEncryptor)
    (hshort : e.reader.data.length - e.reader.pos < BLOCK_SIZE)
    (_hcs : e.current_step < e.total_step) :
    (e.step).1 = Except.error Error.IncorrectStep := by
  have hcount : (e.reader.read BLOCK_SIZE).1 ≠ BLOCK_SIZE := by
    simp only [Reader.read]
    omega
  simp only [StreamEncryptor.step]
  rw [if_neg fun hc => hcount hc.1]

/-- C7 amended witness: the concrete exhausted-reader pump hits the
`IncorrectStep` error. -/
theorem step_short_read_incorrect_step_witness :
    shortReadEncryptor.reader.data.length - shortReadEncryptor.reader.pos
        < BLOCK_SIZE ∧
    shortReadEncryptor.current_step < shortReadEncryptor.total_step ∧
    (shortReadEncryptor.step).1 = Except.error Error.IncorrectStep :=
  ⟨by decide, by decide,
    step_short_read_incorrect_step shortReadEncryptor (by decide) (by decide)⟩

/-- C1: `StreamEncryption::encrypt_streams` fails with `WriteMismatch` on
every input — its check `read_count != write_count + 16` can never pass,
because the writer accepts the whole AEAD output (plaintext + 16-byte
tag), making `write_count + 16 = read_count + 32` on a full block and at
least `BLOCK_SIZE + 32` on a short one.  Encryption therefore never
succeeds, so decrypting its output can never reproduce the plaintext, and
the round-trip property fails for every plaintext, in particular the empty
one. -/
theorem encrypt_streams_always_write_mismatch (s : StreamEncryption)
    (r : Reader) (w : Writer) :
    s.encrypt_streams r w = Except.error Error.WriteMismatch := by
  have h1 : min BLOCK_SIZE (r.data.length - r.pos) ≤ BLOCK_SIZE :=
    Nat.min_le_left _ _
  simp only [StreamEncryption.encrypt_streams, Reader.read, Writer.write,
    StreamEncryption.encrypt_next, StreamEncryption.encrypt_last]
  split
  · rename_i hfull
    split
    · rfl
    · rename_i hc
      exfalso
      simp only [List.length_append, List.length_take, List.length_drop,
        List.length_replicate, Decidable.not_not] at hc
      omega
  · rename_i hshort
    split
    · rfl
    · rename_i hc
      exfalso
      simp only [List.length_append, List.length_take, List.length_drop,
        List.length_replicate, Decidable.not_not] at hc
      omega

/-- C2: `StreamEncryptor::step` checks `read_count != write_count`, but on
a full block the writer accepts the whole AEAD output of
`read_count + 16` bytes, so whenever a full block is read while
`current_step < total_step` — the only path that can succeed — `step`
returns `WriteMismatch` even though the writer accepted every byte,
contradicting the claim that a full write never yields `WriteMismatch`. -/
theorem step_full_read_write_mismatch (e : StreamEncryptor)
    (hfull : BLOCK_SIZE ≤ e.reader.data.length - e.reader.pos)
    (hcs : e.current_step < e.total_step) :
    (e.step).1 = Except.error Error.WriteMismatch := by
  have hmin : min BLOCK_SIZE (e.reader.data.length - e.reader.pos) =
      BLOCK_SIZE := min_eq_left hfull
  simp only [StreamEncryptor.step, Reader.read, Writer.write,
    StreamEncryption.encrypt_next]
  rw [if_pos ⟨hmin, hcs⟩]
  split
  · rfl
  · rename_i hc
    exfalso
    simp only [List.length_append, List.length_take, List.length_drop,
      List.length_replicate, Decidable.not_not, hmin, AEAD_TAG_LEN] at hc
    omega

/-- C2 witness: the pump holding exactly one full zero block hits
`WriteMismatch` on its first (in-bounds) `step`. -/
theorem step_full_read_write_mismatch_witness :
    BLOCK_SIZE ≤ fullBlockEncryptor.reader.data.length -
        fullBlockEncryptor.reader.pos ∧
    fullBlockEncryptor.current_step < fullBlockEncryptor.total_step ∧
    (fullBlockEncryptor.step).1 = Except.error Error.WriteMismatch := by
  have hlen : fullBlockEncryptor.reader.data.length = BLOCK_SIZE :=
    List.length_replicate _ _
  have hpos : fullBlockEncryptor.reader.pos = 0 := rfl
  exact ⟨by omega, by decide,
    step_full_read_write_mismatch fullBlockEncryptor (by omega) (by decide)⟩

/-- C3: on a non-final (full) block, `StreamDecryption::decrypt_streams`
consumes exactly `BLOCK_SIZE` bytes from the ciphertext reader — its read
buffer is `BLOCK_SIZE` bytes, not the `BLOCK_SIZE + AEAD_TAG_LEN` the
claim states — and writes `BLOCK_SIZE - 16` bytes of output. -/
theorem decrypt_streams_reads_only_block_size (s : StreamDecryption)
    (r : Reader) (w : Writer)
    (h : BLOCK_SIZE + AEAD_TAG_LEN ≤ r.data.length - r.pos) :
    ∃ w' r', s.decrypt_streams r w = Except.ok (w', r') ∧
      r'.pos = r.pos + BLOCK_SIZE ∧
      w'.data.length = w.data.length + (BLOCK_SIZE - AEAD_TAG_LEN) := by
  have hmin : min BLOCK_SIZE (r.data.length - r.pos) = BLOCK_SIZE :=
    min_eq_left (by omega)
  have htaken : ((r.data.drop r.pos).take BLOCK_SIZE).length = BLOCK_SIZE := by
    simp only [List.length_take, List.length_drop]
    omega
  have hdec : s.decrypt_next ((r.data.drop r.pos).take BLOCK_SIZE) =
      Except.ok (((r.data.drop r.pos).take BLOCK_SIZE).take
          (BLOCK_SIZE - AEAD_TAG_LEN),
        { s with counter := s.counter + 1 }) := by
    rw [StreamDecryption.decrypt_next, if_pos (by rw [htaken]; decide), htaken]
  have hwc : (((r.data.drop r.pos).take BLOCK_SIZE).take
      (BLOCK_SIZE - AEAD_TAG_LEN)).length = BLOCK_SIZE - AEAD_TAG_LEN := by
    simp only [List.length_take, htaken]
    omega
  refine ⟨⟨w.data ++ ((r.data.drop r.pos).take BLOCK_SIZE).take
      (BLOCK_SIZE - AEAD_TAG_LEN)⟩, ⟨r.data, r.pos + BLOCK_SIZE⟩,
    ?_, rfl, ?_⟩
  · simp only [StreamDecryption.decrypt_streams, Reader.read, Writer.write,
      hmin, Nat.sub_self, List.replicate_zero, List.append_nil]
    rw [if_pos trivial]
    rw [hdec]
    simp only [hwc]
    rw [if_neg (by simp only [AEAD_TAG_LEN]; omega)]
  · simp only [List.length_append, hwc]

/-- C3 witness: a reader holding one full ciphertext block of
`BLOCK_SIZE + 16` zero bytes has only `BLOCK_SIZE` of them consumed. -/
theorem decrypt_streams_reads_only_block_size_witness :
    BLOCK_SIZE + AEAD_TAG_LEN ≤
      fullCiphertextReader.data.length - fullCiphertextReader.pos ∧
    ∃ w' r', decStateX.decrypt_streams fullCiphertextReader emptyWriter =
        Except.ok (w', r') ∧
      r'.pos = fullCiphertextReader.pos + BLOCK_SIZE ∧
      w'.data.length = emptyWriter.data.length +
        (BLOCK_SIZE - AEAD_TAG_LEN) := by
  have hlen : fullCiphertextReader.data.length = BLOCK_SIZE + AEAD_TAG_LEN :=
    List.length_replicate _ _
  have hpos : fullCiphertextReader.pos = 0 := rfl
  exact ⟨by omega,
    decrypt_streams_reads_only_block_size decStateX fullCiphertextReader
      emptyWriter (by omega)⟩

end Spacedrive
